import Mathlib

/-!
Verification development for a parallel recursive task engine with a TSP
branch-and-bound instantiation, a mergesort task, sequential runners and a
lock-free task stack. Each C++ component is shallowly embedded as an
executable Lean definition; machine ints are modelled as Int, exceptions as
Option, and the concurrent runner by its sequential (single worker)
operational semantics, which determines the counters the claims speak about.
-/

/-- Value of INT_MAX on the 32-bit int used by the C++ sources. -/
def intMax : ℤ := 2147483647

/-- Model of TSPGraph (tspgraph.hpp): an immutable distance matrix, given by
its size and a distance function. -/
structure TSPGraph where
  n : ℕ
  dist : ℕ → ℕ → ℤ

/-- Model of TSPPath (modified_tsptask.hpp lines 20-90): the ordered node
sequence (index 0 first), the cumulative distance, and the membership bitset
modelled as a Finset. -/
structure TSPPath where
  nodes : List ℕ
  distance : ℤ
  contents : Finset ℕ
deriving DecidableEq

/-- TSPPath default constructor: the path containing only city 0. -/
def TSPPath.init : TSPPath :=
  { nodes := [0], distance := 0, contents := {0} }

/-- TSPPath::size. -/
def TSPPath.size (p : TSPPath) : ℕ := p.nodes.length

/-- TSPPath::tail: the last node of the sequence. -/
def TSPPath.tail (p : TSPPath) : ℕ := p.nodes.getLastD 0

/-- TSPPath::contains. -/
def TSPPath.contains (p : TSPPath) (i : ℕ) : Bool := i ∈ p.contents

/-- TSPPath::maximise: sets the distance to INT_MAX. -/
def TSPPath.maximise (p : TSPPath) : TSPPath :=
  { p with distance := intMax }

/-- Successful body of TSPPath::push (the mutation performed once the bounds
check has passed): add the edge from the old tail, set the membership bit,
append the node. -/
def TSPPath.pushT (g : TSPGraph) (p : TSPPath) (node : ℕ) : TSPPath :=
  { nodes := p.nodes ++ [node]
    distance := p.distance + g.dist p.tail node
    contents := insert node p.contents }

/-- TSPPath::push: throws (modelled as none) when the node is outside the
graph; the check precedes every mutation, so on failure the path is
unchanged. -/
def TSPPath.push (g : TSPGraph) (p : TSPPath) (node : ℕ) : Option TSPPath :=
  if node < g.n then some (p.pushT g node) else none

/-- TSPPath::pop: throws (none) on a path of size below 2; otherwise drops
the last node, subtracting its edge, and clears its membership bit unless
the popped node is city 0. -/
def TSPPath.pop (g : TSPGraph) (p : TSPPath) : Option TSPPath :=
  if p.nodes.length < 2 then none
  else
    let oldtail := p.nodes.getLastD 0
    let rest := p.nodes.dropLast
    let newtail := rest.getLastD 0
    some { nodes := rest
           distance := p.distance - g.dist newtail oldtail
           contents := if oldtail ≠ 0 then p.contents.erase oldtail else p.contents }

/-- Shared (static) state of ModifiedTSPTask: the atomic incumbent distance,
the mutex-guarded incumbent path, and the one-shot initial-bound flag. -/
structure TSPShared where
  best_distance : ℤ
  best_path : TSPPath
  initial_bound_set : Bool
deriving DecidableEq

/-- State installed by the ModifiedTSPTask(int cutoff) constructor:
best_distance = INT_MAX, flag cleared, best_path maximised. -/
def initShared : TSPShared :=
  { best_distance := intMax
    best_path := TSPPath.init.maximise
    initial_bound_set := false }

/-- Per-task state of a ModifiedTSPTask: its path and the mutable
_local_best_check_counter. -/
structure MTask where
  path : TSPPath
  counter : ℕ
deriving DecidableEq

/-- Path built by ModifiedTSPTask::computeInitialBound: start from the
default path, push 1, 2, ..., N-1, then push city 0 to close the tour. -/
def naiveTour (g : TSPGraph) : TSPPath :=
  TSPPath.pushT g ((List.range' 1 (g.n - 1)).foldl (TSPPath.pushT g) TSPPath.init) 0

/-- ModifiedTSPTask::computeInitialBound: store the naive tour distance as
the incumbent and the naive tour as the incumbent path. -/
def ModifiedTSPTask.computeInitialBound (g : TSPGraph) (s : TSPShared) : TSPShared :=
  let p := naiveTour g
  { s with best_distance := p.distance, best_path := p }

/-- The initial-bound gate at the top of ModifiedTSPTask::split: test-and-set
initial_bound_set, and on the first call run computeInitialBound. -/
def ModifiedTSPTask.ensureInitialBound (g : TSPGraph) (s : TSPShared) : TSPShared :=
  if s.initial_bound_set then s
  else ModifiedTSPTask.computeInitialBound g { s with initial_bound_set := true }

/-- ModifiedTSPTask::updateBestPath, sequential semantics of the CAS loop:
when the candidate improves on the incumbent, install its distance and path
and return true; otherwise leave the state unchanged and return false. -/
def ModifiedTSPTask.updateBestPath (s : TSPShared) (candidate : TSPPath) :
    TSPShared × Bool :=
  if candidate.distance < s.best_distance then
    ({ s with best_distance := candidate.distance, best_path := candidate }, true)
  else (s, false)

/-- ModifiedTSPTask::shouldPrune: increment the local counter; on every 16th
check compare the path distance against the incumbent. Returns the verdict
and the new counter. -/
def ModifiedTSPTask.shouldPrune (best : ℤ) (path : TSPPath) (counter : ℕ) :
    Bool × ℕ :=
  let c := counter + 1
  ((c % 16 == 0) && decide (path.distance ≥ best), c)

/-- Result of ModifiedTSPTask::split: the returned count, the collection
contents after the call (children are task objects holding the pushed path
and a zero counter; only the paths are modelled), the shared state, and the
task state. -/
structure SplitResult where
  count : ℕ
  coll : List TSPPath
  state : TSPShared
  task : MTask
deriving DecidableEq

/-- ModifiedTSPTask::split (modified_tsptask.hpp lines 172-197): run the
initial-bound gate, return 0 at the cutoff, return 0 when shouldPrune fires,
and otherwise push one child per unvisited city whose extension cost beats
the incumbent snapshot loaded before the loop. -/
def ModifiedTSPTask.split (g : TSPGraph) (cutoffSize : ℤ) (s : TSPShared)
    (t : MTask) (coll : List TSPPath) : SplitResult :=
  let s1 := ModifiedTSPTask.ensureInitialBound g s
  if (t.path.size : ℤ) ≥ cutoffSize then ⟨0, coll, s1, t⟩
  else
    let pr := ModifiedTSPTask.shouldPrune s1.best_distance t.path t.counter
    let t1 : MTask := ⟨t.path, pr.2⟩
    if pr.1 then ⟨0, coll, s1, t1⟩
    else
      let current_best := s1.best_distance
      let r := (List.range g.n).foldl
        (fun (acc : List TSPPath × ℕ) i =>
          if !t.path.contains i &&
              decide (t.path.distance + g.dist t.path.tail i < current_best) then
            (acc.1 ++ [t.path.pushT g i], acc.2 + 1)
          else acc)
        (coll, 0)
      ⟨r.2, r.1, s1, t1⟩

/-- ModifiedTSPTask::merge: a no-op that leaves the collection untouched. -/
def ModifiedTSPTask.merge (coll : List TSPPath) : List TSPPath := coll

/-- Loop body of ModifiedTSPTask::solve, abstracted over the recursive call:
for each candidate city, if unvisited and under the current bound, recurse
on the extended path and refresh the bound from the shared state. The
recursion restores the path by the matching pop, so the caller keeps its own
path value. -/
def ModifiedTSPTask.solveLoop (g : TSPGraph)
    (recur : TSPShared → TSPPath → ℕ → TSPShared × ℕ) (path : TSPPath) :
    List ℕ → TSPShared → ℤ → ℕ → TSPShared × ℕ
  | [], s, _, cnt => (s, cnt)
  | i :: rest, s, current_best, cnt =>
    if !path.contains i &&
        decide (path.distance + g.dist path.tail i < current_best) then
      let r := recur s (path.pushT g i) cnt
      ModifiedTSPTask.solveLoop g recur path rest r.1 r.1.best_distance r.2
    else
      ModifiedTSPTask.solveLoop g recur path rest s current_best cnt

/-- ModifiedTSPTask::solve (modified_tsptask.hpp lines 201-225), with a fuel
parameter bounding the recursion depth (the C++ recursion is bounded by the
number of unvisited cities): prune check first; on a full path close the
tour and try updateBestPath; otherwise run the pruned depth-first loop. -/
def ModifiedTSPTask.solve (g : TSPGraph) :
    ℕ → TSPShared → TSPPath → ℕ → TSPShared × ℕ
  | 0, s, _, cnt => (s, cnt)
  | fuel + 1, s, path, cnt =>
    let pr := ModifiedTSPTask.shouldPrune s.best_distance path cnt
    if pr.1 then (s, pr.2)
    else if path.size = g.n then
      let p2 := path.pushT g 0
      if p2.distance < s.best_distance then
        ((ModifiedTSPTask.updateBestPath s p2).1, pr.2)
      else (s, pr.2)
    else
      ModifiedTSPTask.solveLoop g
        (fun s2 p2 c2 => ModifiedTSPTask.solve g fuel s2 p2 c2) path
        (List.range g.n) s s.best_distance pr.2

/-- TSPTask::split (tsptask.hpp lines 123-136): clear the collection first,
return 0 at the cutoff, otherwise push one child per unvisited city with no
bound check. -/
def TSPTask.split (g : TSPGraph) (cutoffSize : ℤ) (path : TSPPath)
    (coll : List TSPPath) : ℕ × List TSPPath :=
  let coll0 : List TSPPath := []
  if (path.size : ℤ) ≥ cutoffSize then (0, coll0)
  else
    let r := (List.range g.n).foldl
      (fun (acc : List TSPPath × ℕ) i =>
        if !path.contains i then (acc.1 ++ [path.pushT g i], acc.2 + 1)
        else acc)
      (coll0, 0)
    (r.2, r.1)

/-- Loop of TSPTask::merge (tsptask.hpp lines 138-144): pop while the index
p is below the current size; the size shrinks as elements are popped. -/
def TSPTask.mergeLoop (coll : List TSPPath) (p : ℕ) : List TSPPath :=
  if p < coll.length then TSPTask.mergeLoop coll.dropLast (p + 1) else coll
termination_by coll.length
decreasing_by simp [List.length_dropLast]; omega

/-- TSPTask::merge: run the pop loop from index 0. -/
def TSPTask.merge (coll : List TSPPath) : List TSPPath :=
  TSPTask.mergeLoop coll 0

/-- IntVecSortTask::split (intvecsorttask.hpp lines 24-32): a vector of
length at most 1 returns 0 without touching the collection; otherwise the
two halves are pushed, left first. -/
def IntVecSortTask.split (v : List ℤ) (coll : List (List ℤ)) :
    ℕ × List (List ℤ) :=
  if v.length ≤ 1 then (0, coll)
  else
    let mid := v.length / 2
    (2, coll ++ [v.take mid, v.drop mid])

/-- Model of std::merge on int vectors: take from the second range only when
its head is strictly smaller (stable two-way merge). -/
def stdMerge : List ℤ → List ℤ → List ℤ
  | [], ys => ys
  | x :: xs, [] => x :: xs
  | x :: xs, y :: ys =>
    if y < x then y :: stdMerge (x :: xs) ys
    else x :: stdMerge xs (y :: ys)
termination_by a b => a.length + b.length

/-- IntVecSortTask::merge (intvecsorttask.hpp lines 34-48): requires exactly
two children (else it throws, modelled as none); replaces the vector by the
std::merge of the children and clears the collection. Returns the new vector
together with the collection contents after the call. -/
def IntVecSortTask.merge : List (List ℤ) → Option (List ℤ × List (List ℤ))
  | [l, r] => some (stdMerge l r, [])
  | _ => none

/-- IntVecSortTask::solve: std::sort, modelled as the sorted permutation of
the vector. -/
def IntVecSortTask.solve (v : List ℤ) : List ℤ :=
  List.insertionSort (fun a b => a ≤ b) v

/-- DirectTaskRunner::run on an IntVecSortTask: a single solve call. -/
def DirectTaskRunner.runSort (v : List ℤ) : List ℤ :=
  IntVecSortTask.solve v

/-- PartitionedTaskStackRunner::recurse (task.hpp lines 106-120) specialised
to IntVecSortTask: split; when children were pushed (the two halves, left at
index 0), recurse on each in push order and merge them; otherwise solve. -/
def PartitionedTaskStackRunner.runSort (v : List ℤ) : List ℤ :=
  if v.length ≤ 1 then IntVecSortTask.solve v
  else
    stdMerge (PartitionedTaskStackRunner.runSort (v.take (v.length / 2)))
      (PartitionedTaskStackRunner.runSort (v.drop (v.length / 2)))
termination_by v.length
decreasing_by
  · simp; omega
  · simp; omega

/-- Model of LockFreeStack (lockfree_stack.hpp), sequential semantics of the
Treiber stack: the list of tasks reachable from head (top first) and the
advisory size counter. A Task pointer is modelled as an Option, none being
the null pointer. -/
structure LockFreeStack (α : Type) where
  elems : List α
  size_counter : ℤ
deriving DecidableEq

/-- LockFreeStack::push (lockfree_stack.hpp lines 70-100): a null task
returns immediately; otherwise a node holding the task becomes the new head
and the size counter is incremented. -/
def LockFreeStack.push (s : LockFreeStack α) (task : Option α) :
    LockFreeStack α :=
  match task with
  | none => s
  | some t => { elems := t :: s.elems, size_counter := s.size_counter + 1 }

/-- LockFreeStack::pop: empty stack returns null and leaves the stack alone;
otherwise the head task is returned, its node freed, the counter
decremented. -/
def LockFreeStack.pop (s : LockFreeStack α) : Option α × LockFreeStack α :=
  match s.elems with
  | [] => (none, s)
  | t :: rest => (some t, { elems := rest, size_counter := s.size_counter - 1 })

/-- Split/solve tree of a run: each task either splits into the listed
children (split returns their number) or, when the list is empty, split
returns 0 and the task is solved as a leaf. -/
inductive TaskTree where
  | node : List TaskTree → TaskTree

mutual
/-- Number of leaf tasks (tasks whose split returns 0) in a tree. -/
def TaskTree.leaves : TaskTree → ℕ
  | .node cs => if cs.isEmpty then 1 else TaskTree.leavesL cs
/-- Number of leaf tasks in a forest. -/
def TaskTree.leavesL : List TaskTree → ℕ
  | [] => 0
  | c :: cs => TaskTree.leaves c + TaskTree.leavesL cs
end

mutual
/-- Number of internal splits (tasks whose split returns a positive count)
in a tree. -/
def TaskTree.splits : TaskTree → ℕ
  | .node cs => if cs.isEmpty then 0 else 1 + TaskTree.splitsL cs
/-- Number of internal splits in a forest. -/
def TaskTree.splitsL : List TaskTree → ℕ
  | [] => 0
  | c :: cs => TaskTree.splits c + TaskTree.splitsL cs
end

/-- Counters reported by ParallelTaskRunner after run, together with the
trace of outstanding_tasks values observed at each fetch_sub (the only
points where the counter can reach 0: the initial store is 1 and every
fetch_add precedes the matching decrement). -/
structure RunStats where
  tasks_created : ℕ
  tasks_processed : ℕ
  outstanding_trace : List ℤ
deriving DecidableEq

theorem TaskTree.leavesL_append (a b : List TaskTree) :
    TaskTree.leavesL (a ++ b) = TaskTree.leavesL a + TaskTree.leavesL b := by
  induction a with
  | nil => simp [TaskTree.leavesL]
  | cons c cs ih => simp [TaskTree.leavesL, ih]; omega

theorem TaskTree.leavesL_reverse (a : List TaskTree) :
    TaskTree.leavesL a.reverse = TaskTree.leavesL a := by
  induction a with
  | nil => rfl
  | cons c cs ih =>
    simp [List.reverse_cons, TaskTree.leavesL_append, TaskTree.leavesL, ih]
    omega

theorem TaskTree.splitsL_append (a b : List TaskTree) :
    TaskTree.splitsL (a ++ b) = TaskTree.splitsL a + TaskTree.splitsL b := by
  induction a with
  | nil => simp [TaskTree.splitsL]
  | cons c cs ih => simp [TaskTree.splitsL, ih]; omega

theorem TaskTree.splitsL_reverse (a : List TaskTree) :
    TaskTree.splitsL a.reverse = TaskTree.splitsL a := by
  induction a with
  | nil => rfl
  | cons c cs ih =>
    simp [List.reverse_cons, TaskTree.splitsL_append, TaskTree.splitsL, ih]
    omega

/-- Worker loop of ParallelTaskRunner (parallel_task_runner.hpp lines
36-96), sequential operational semantics: pop the top task; when its split
pushes n > 0 children they enter the pool and tasks_created and
outstanding_tasks grow by n; otherwise the task is solved and
tasks_processed grows by 1; either way outstanding_tasks is then
decremented, and the value it shows after each decrement is recorded. -/
def ParallelTaskRunner.runAux :
    List TaskTree → ℕ → ℕ → ℤ → RunStats
  | [], created, processed, _ => ⟨created, processed, []⟩
  | TaskTree.node cs :: rest, created, processed, outstanding =>
    if cs.isEmpty then
      let out2 := outstanding - 1
      let r := ParallelTaskRunner.runAux rest created (processed + 1) out2
      ⟨r.tasks_created, r.tasks_processed, out2 :: r.outstanding_trace⟩
    else
      let out2 := outstanding + cs.length - 1
      let r := ParallelTaskRunner.runAux (cs.reverse ++ rest)
        (created + cs.length) processed out2
      ⟨r.tasks_created, r.tasks_processed, out2 :: r.outstanding_trace⟩
termination_by pool _ _ _ => TaskTree.leavesL pool + TaskTree.splitsL pool
decreasing_by
  · simp [TaskTree.leavesL, TaskTree.splitsL, TaskTree.leaves, TaskTree.splits, *] <;>
      omega
  · simp [TaskTree.leavesL_append, TaskTree.splitsL_append,
      TaskTree.leavesL_reverse, TaskTree.splitsL_reverse,
      TaskTree.leavesL, TaskTree.splitsL, TaskTree.leaves, TaskTree.splits, *] <;>
      omega

/-- ParallelTaskRunner::run (parallel_task_runner.hpp lines 121-160): set
outstanding_tasks to 1, push the root, store tasks_created = 1, and drive
the workers to quiescence. -/
def ParallelTaskRunner.run (root : TaskTree) : RunStats :=
  ParallelTaskRunner.runAux [root] 1 0 1

/-- ModifiedTSPTask operation as named by the spec: a split call, a solve
call, or a direct updateBestPath call. -/
inductive MOp where
  | splitOp : MTask → MOp
  | solveOp : MTask → MOp
  | updateOp : TSPPath → MOp

/-- Whether an operation is a split call. -/
def MOp.isSplit : MOp → Bool
  | .splitOp _ => true
  | _ => false

/-- Effect of one ModifiedTSPTask operation on the shared incumbent state.
A split is driven with an empty local collection; the children only carry
paths and do not touch the shared state. -/
def applyMOp (g : TSPGraph) (cutoffSize : ℤ) (fuel : ℕ) (s : TSPShared) :
    MOp → TSPShared
  | .splitOp t => (ModifiedTSPTask.split g cutoffSize s t []).state
  | .solveOp t => (ModifiedTSPTask.solve g fuel s t.path t.counter).1
  | .updateOp c => (ModifiedTSPTask.updateBestPath s c).1

/-- Shared states observed at the call boundaries of a sequence of
ModifiedTSPTask operations, the starting state first. -/
def stateTrace (g : TSPGraph) (cutoffSize : ℤ) (fuel : ℕ) :
    TSPShared → List MOp → List TSPShared
  | s, [] => [s]
  | s, op :: rest =>
    s :: stateTrace g cutoffSize fuel (applyMOp g cutoffSize fuel s op) rest

/-- TSPPath mutation: a push of a given node, or a pop. -/
inductive PathOp where
  | pushOp : ℕ → PathOp
  | popOp : PathOp

/-- Effect of one TSPPath operation; none models a thrown exception. -/
def applyPathOp (g : TSPGraph) (p : TSPPath) : PathOp → Option TSPPath
  | .pushOp m => p.push g m
  | .popOp => p.pop g

/-- Run a sequence of TSPPath operations; an exception aborts the
sequence. -/
def runPathOps (g : TSPGraph) : Option TSPPath → List PathOp → Option TSPPath
  | q, [] => q
  | some p, op :: rest => runPathOps g (applyPathOp g p op) rest
  | none, _ :: _ => none

/-- Children demanded by the spec for a non-cutoff, non-pruned split: one
per city not in the path whose extension cost is strictly below the
incumbent snapshot, in increasing city order, each the parent path with the
city appended. Stated from the spec for comparison with the split loop. -/
def splitChildren (g : TSPGraph) (best : ℤ) (path : TSPPath) : List TSPPath :=
  ((List.range g.n).filter
    (fun i => !path.contains i &&
      decide (path.distance + g.dist path.tail i < best))).map
    (path.pushT g)

/-- Concrete two-city graph with unit distances, used by witnesses. -/
def g2 : TSPGraph := ⟨2, fun i j => if i = j then 0 else 1⟩

/-- Concrete three-city graph with unit distances, used by witnesses. -/
def g3 : TSPGraph := ⟨3, fun i j => if i = j then 0 else 1⟩

/-- Split/solve tree in which the root splits into two leaves: M = 2 leaf
tasks, S = 1 splitting task. -/
def cxTree : TaskTree := .node [.node [], .node []]

/-- Claim C10: LockFreeStack::push called with a null task pointer returns
immediately without any effect: no node is allocated and the head, size
counter and contents are unchanged. -/
theorem lockfree_push_null_noop {α : Type} :
    ∀ s : LockFreeStack α, s.push none = s := fun _ => rfl

/-- Claim C9: TSPPath::push throws exactly when the node is at or beyond the
graph size, and since the check precedes every mutation a throwing call
leaves the path unchanged (the Option model returns to the caller with the
original path value); a successful push appends the node, sets its
membership bit, and adds the edge weight from the old tail. -/
theorem tsppath_push_spec (g : TSPGraph) (p : TSPPath) (node : ℕ) :
    (TSPPath.push g p node = none ↔ g.n ≤ node) ∧
    (∀ q, TSPPath.push g p node = some q →
      q.nodes = p.nodes ++ [node] ∧
      q.contents = insert node p.contents ∧
      q.distance = p.distance + g.dist p.tail node) := by
  constructor
  · unfold TSPPath.push
    split <;> simp <;> omega
  · intro q hq
    unfold TSPPath.push at hq
    split at hq
    · cases hq
      exact ⟨rfl, rfl, rfl⟩
    · cases hq

theorem tsppath_push_spec_witness :
    (TSPPath.pushT g2 TSPPath.init 1).nodes = TSPPath.init.nodes ++ [1] ∧
    (TSPPath.pushT g2 TSPPath.init 1).contents = insert 1 TSPPath.init.contents ∧
    (TSPPath.pushT g2 TSPPath.init 1).distance =
      TSPPath.init.distance + g2.dist TSPPath.init.tail 1 :=
  (tsppath_push_spec g2 TSPPath.init 1).2 (TSPPath.pushT g2 TSPPath.init 1)
    (by decide)

theorem tsppath_push_keeps_inv (g : TSPGraph) (p q : TSPPath) (m : ℕ)
    (h : TSPPath.push g p m = some q)
    (h1 : p.nodes.head? = some 0) (h2 : 0 ∈ p.contents) :
    q.nodes.head? = some 0 ∧ 0 ∈ q.contents := by
  unfold TSPPath.push at h
  split at h
  · cases h
    cases hn : p.nodes with
    | nil => rw [hn] at h1; cases h1
    | cons a t =>
      rw [hn] at h1
      simp at h1
      subst h1
      exact ⟨by simp [TSPPath.pushT, hn], Finset.mem_insert_of_mem h2⟩
  · cases h

theorem tsppath_pop_keeps_inv (g : TSPGraph) (p q : TSPPath)
    (h : TSPPath.pop g p = some q)
    (h1 : p.nodes.head? = some 0) (h2 : 0 ∈ p.contents) :
    q.nodes.head? = some 0 ∧ 0 ∈ q.contents := by
  unfold TSPPath.pop at h
  split at h
  · cases h
  · cases h
    constructor
    · cases hn : p.nodes with
      | nil => rw [hn] at h1; cases h1
      | cons a t =>
        rw [hn] at h1
        simp at h1
        subst h1
        cases t with
        | nil => rename_i hlen; rw [hn] at hlen; simp at hlen
        | cons b t2 => simp [hn, List.dropLast]
    · dsimp only
      split
      · rename_i hne
        exact Finset.mem_erase.mpr ⟨fun he => hne he.symm, h2⟩
      · exact h2

theorem runPathOps_none (g : TSPGraph) (l : List PathOp) :
    runPathOps g none l = none := by
  cases l <;> rfl

theorem runPathOps_inv (g : TSPGraph) :
    ∀ (ops : List PathOp) (p q : TSPPath),
      p.nodes.head? = some 0 → 0 ∈ p.contents →
      runPathOps g (some p) ops = some q →
      q.nodes.head? = some 0 ∧ 0 ∈ q.contents := by
  intro ops
  induction ops with
  | nil =>
    intro p q h1 h2 h3
    cases h3
    exact ⟨h1, h2⟩
  | cons op rest ih =>
    intro p q h1 h2 h3
    rw [runPathOps] at h3
    cases hstep : applyPathOp g p op with
    | none => rw [hstep, runPathOps_none] at h3; cases h3
    | some p2 =>
      rw [hstep] at h3
      cases op with
      | pushOp m =>
        have := tsppath_push_keeps_inv g p p2 m hstep h1 h2
        exact ih p2 q this.1 this.2 h3
      | popOp =>
        have := tsppath_pop_keeps_inv g p p2 hstep h1 h2
        exact ih p2 q this.1 this.2 h3

/-- Claim C8: every TSPPath reachable from the default constructor by push
and pop operations has city 0 as its first element and contains(0) true; in
particular pop never clears city 0's membership bit, even when the popped
element is the closing repetition of city 0. -/
theorem tsppath_first_node_invariant (g : TSPGraph) (ops : List PathOp)
    (q : TSPPath) (h : runPathOps g (some TSPPath.init) ops = some q) :
    q.nodes.head? = some 0 ∧ q.contains 0 = true := by
  have hinv := runPathOps_inv g ops TSPPath.init q (by rfl) (by decide) h
  exact ⟨hinv.1, by simpa [TSPPath.contains] using hinv.2⟩

theorem tsppath_first_node_invariant_witness :
    TSPPath.init.nodes.head? = some 0 ∧ TSPPath.init.contains 0 = true :=
  tsppath_first_node_invariant g2 [PathOp.pushOp 1, PathOp.popOp] TSPPath.init
    (by decide)

theorem splitResult_state (g : TSPGraph) (cutoffSize : ℤ) (s : TSPShared)
    (t : MTask) (coll : List TSPPath) :
    (ModifiedTSPTask.split g cutoffSize s t coll).state =
      ModifiedTSPTask.ensureInitialBound g s := by
  unfold ModifiedTSPTask.split
  split
  · rfl
  · dsimp only
    split <;> rfl

theorem foldl_pushT_nodes (g : TSPGraph) :
    ∀ (l : List ℕ) (p : TSPPath),
      (l.foldl (TSPPath.pushT g) p).nodes = p.nodes ++ l := by
  intro l
  induction l with
  | nil => intro p; simp
  | cons i rest ih =>
    intro p
    simp only [List.foldl_cons, ih, TSPPath.pushT]
    simp

theorem naiveTour_nodes (g : TSPGraph) (hg : 0 < g.n) :
    (naiveTour g).nodes = List.range g.n ++ [0] := by
  unfold naiveTour
  simp only [TSPPath.pushT, foldl_pushT_nodes, TSPPath.init]
  obtain ⟨m, hm⟩ : ∃ m, g.n = m + 1 := ⟨g.n - 1, by omega⟩
  rw [hm, List.range_eq_range', List.range'_succ]
  simp

theorem ensure_flag_false (g : TSPGraph) (s : TSPShared)
    (h : s.initial_bound_set = false) :
    ModifiedTSPTask.ensureInitialBound g s =
      { best_distance := (naiveTour g).distance
        best_path := naiveTour g
        initial_bound_set := true } := by
  unfold ModifiedTSPTask.ensureInitialBound
  rw [h]
  rfl

/-- Claim C5: the first split call system-wide, gated by the test-and-set on
initial_bound_set, stores the distance of the naive closed tour
0,1,...,N-1,0 as the incumbent, so after that split returns best_distance
is (exactly, hence at most) the cost of the naive tour. -/
theorem first_split_initial_bound (g : TSPGraph) (cutoffSize : ℤ)
    (s : TSPShared) (t : MTask) (coll : List TSPPath) (hg : 0 < g.n)
    (hflag : s.initial_bound_set = false) :
    (ModifiedTSPTask.split g cutoffSize s t coll).state.best_distance =
        (naiveTour g).distance ∧
    (naiveTour g).nodes = List.range g.n ++ [0] ∧
    (ModifiedTSPTask.split g cutoffSize s t coll).state.best_distance ≤
        (naiveTour g).distance := by
  rw [splitResult_state, ensure_flag_false g s hflag]
  exact ⟨rfl, naiveTour_nodes g hg, le_refl _⟩

theorem first_split_initial_bound_witness :
    (ModifiedTSPTask.split g2 2 initShared ⟨TSPPath.init, 0⟩ []).state.best_distance =
        (naiveTour g2).distance ∧
    (naiveTour g2).nodes = List.range g2.n ++ [0] ∧
    (ModifiedTSPTask.split g2 2 initShared ⟨TSPPath.init, 0⟩ []).state.best_distance ≤
        (naiveTour g2).distance :=
  first_split_initial_bound g2 2 initShared ⟨TSPPath.init, 0⟩ [] (by decide) rfl

theorem foldl_pushStep {β : Type} (f : ℕ → β) (q : ℕ → Bool) :
    ∀ (l : List ℕ) (coll : List β) (k : ℕ),
      l.foldl (fun (acc : List β × ℕ) i =>
          if q i then (acc.1 ++ [f i], acc.2 + 1) else acc) (coll, k) =
        (coll ++ (l.filter q).map f, k + (l.filter q).length) := by
  intro l
  induction l with
  | nil => intro coll k; simp
  | cons i rest ih =>
    intro coll k
    by_cases h : q i
    · simp [h, ih]; omega
    · simp [h, ih]

/-- Claim C3: when the path has reached the cutoff size, split returns 0 and
pushes nothing; below the cutoff, when the periodic prune check does not
fire, split appends exactly the spec's children (one per unvisited city
whose extension cost is strictly below the incumbent snapshot taken after
the initial-bound gate) and returns their number. -/
theorem modified_split_spec (g : TSPGraph) (cutoffSize : ℤ) (s : TSPShared)
    (t : MTask) (coll : List TSPPath) :
    ((t.path.size : ℤ) ≥ cutoffSize →
      (ModifiedTSPTask.split g cutoffSize s t coll).count = 0 ∧
      (ModifiedTSPTask.split g cutoffSize s t coll).coll = coll) ∧
    ((t.path.size : ℤ) < cutoffSize →
      ¬ ((t.counter + 1) % 16 = 0 ∧
          t.path.distance ≥ (ModifiedTSPTask.ensureInitialBound g s).best_distance) →
      (ModifiedTSPTask.split g cutoffSize s t coll).coll =
        coll ++ splitChildren g
          (ModifiedTSPTask.ensureInitialBound g s).best_distance t.path ∧
      (ModifiedTSPTask.split g cutoffSize s t coll).count =
        (splitChildren g
          (ModifiedTSPTask.ensureInitialBound g s).best_distance t.path).length) := by
  constructor
  · intro hcut
    unfold ModifiedTSPTask.split
    rw [if_pos hcut]
    exact ⟨rfl, rfl⟩
  · intro hcut hpr
    have hpr2 : (ModifiedTSPTask.shouldPrune
        (ModifiedTSPTask.ensureInitialBound g s).best_distance t.path t.counter).1
        = false := by
      unfold ModifiedTSPTask.shouldPrune
      simp only [Bool.and_eq_false_iff, beq_eq_false_iff_ne, decide_eq_false_iff_not]
      by_cases h16 : (t.counter + 1) % 16 = 0
      · exact Or.inr fun hge => hpr ⟨h16, hge⟩
      · exact Or.inl h16
    unfold ModifiedTSPTask.split
    rw [if_neg (not_le.mpr hcut)]
    dsimp only
    rw [hpr2]
    simp only [Bool.false_eq_true, if_false]
    rw [foldl_pushStep]
    exact ⟨rfl, by simp [splitChildren]⟩

theorem modified_split_spec_witness :
    (ModifiedTSPTask.split g3 3 initShared ⟨TSPPath.init, 0⟩ []).coll =
      [] ++ splitChildren g3
        (ModifiedTSPTask.ensureInitialBound g3 initShared).best_distance
        TSPPath.init ∧
    (ModifiedTSPTask.split g3 3 initShared ⟨TSPPath.init, 0⟩ []).count =
      (splitChildren g3
        (ModifiedTSPTask.ensureInitialBound g3 initShared).best_distance
        TSPPath.init).length :=
  (modified_split_spec g3 3 initShared ⟨TSPPath.init, 0⟩ []).2 (by decide) (by decide)

/-- Claim C7 counterexample: TSPTask::split clears the collection before
anything else, so at the cutoff it returns 0 yet a previously nonempty
collection comes back empty, not as it was before the call. -/
theorem tsptask_split_clears_counterexample :
    (TSPTask.split g2 1 TSPPath.init [TSPPath.init]).1 = 0 ∧
    (TSPTask.split g2 1 TSPPath.init [TSPPath.init]).2 ≠ [TSPPath.init] := by
  decide

/-- Claim C7 (amended): for ModifiedTSPTask and IntVecSortTask, split's only
effect on the collection is appending the children it pushes, their number
being the returned count, so a zero return leaves the collection exactly as
it was; TSPTask::split instead clears the collection before anything else,
so a zero return from it leaves the collection empty rather than
untouched. -/
theorem split_frame_amended (g : TSPGraph) (cutoffSize : ℤ) (s : TSPShared)
    (t : MTask) (coll : List TSPPath) (v : List ℤ) (cv : List (List ℤ)) :
    (∃ pushed, (ModifiedTSPTask.split g cutoffSize s t coll).coll = coll ++ pushed ∧
        pushed.length = (ModifiedTSPTask.split g cutoffSize s t coll).count) ∧
    (∃ pushed, (IntVecSortTask.split v cv).2 = cv ++ pushed ∧
        pushed.length = (IntVecSortTask.split v cv).1) := by
  constructor
  · unfold ModifiedTSPTask.split
    split
    · exact ⟨[], by simp⟩
    · dsimp only
      split
      · exact ⟨[], by simp⟩
      · rw [foldl_pushStep]
        exact ⟨_, rfl, by simp⟩
  · unfold IntVecSortTask.split
    split
    · exact ⟨[], by simp⟩
    · exact ⟨[v.take (v.length / 2), v.drop (v.length / 2)], by simp⟩

/-- Claim C4 counterexample: ModifiedTSPTask::merge is an empty body; after
a call on a collection holding one completed child the collection still
holds it, so merge neither consumes the children nor drains the pool. -/
theorem modified_merge_not_drain_counterexample :
    ModifiedTSPTask.merge [TSPPath.init] ≠ [] := by
  decide

theorem mergeLoop_length (coll : List TSPPath) (p : ℕ) :
    (TSPTask.mergeLoop coll p).length =
      if p < coll.length then (coll.length + p) / 2 else coll.length := by
  induction coll, p using TSPTask.mergeLoop.induct with
  | case1 coll p h ih =>
    unfold TSPTask.mergeLoop
    rw [if_pos h, ih, if_pos h]
    simp only [List.length_dropLast]
    split <;> omega
  | case2 coll p h =>
    unfold TSPTask.mergeLoop
    rw [if_neg h, if_neg h]

/-- Claim C4 (amended): IntVecSortTask::merge consumes its two children and
clears the collection; ModifiedTSPTask::merge is a pure no-op that leaves
the collection exactly as given (it does not drain); TSPTask::merge pops
only while the loop index is below the shrinking size, so of n children it
pops n - n / 2 and leaves n / 2 behind. -/
theorem merge_drain_amended (coll : List TSPPath) (l r : List ℤ) :
    ModifiedTSPTask.merge coll = coll ∧
    (TSPTask.merge coll).length = coll.length / 2 ∧
    IntVecSortTask.merge [l, r] = some (stdMerge l r, []) := by
  refine ⟨rfl, ?_, rfl⟩
  unfold TSPTask.merge
  rw [mergeLoop_length]
  split <;> omega

theorem stdMerge_perm : ∀ (xs ys : List ℤ), (stdMerge xs ys).Perm (xs ++ ys) := by
  intro xs ys
  induction xs, ys using stdMerge.induct with
  | case1 ys => simp [stdMerge]
  | case2 x xs => simp [stdMerge]
  | case3 x xs y ys h ih =>
    rw [stdMerge, if_pos h]
    exact (ih.cons y).trans List.perm_middle.symm
  | case4 x xs y ys h ih =>
    rw [stdMerge, if_neg h]
    exact ih.cons x

theorem stdMerge_sorted : ∀ (xs ys : List ℤ),
    xs.Sorted (· ≤ ·) → ys.Sorted (· ≤ ·) →
    (stdMerge xs ys).Sorted (· ≤ ·) := by
  intro xs ys
  induction xs, ys using stdMerge.induct with
  | case1 ys => intro _ hy; simpa [stdMerge] using hy
  | case2 x xs => intro hx _; simpa [stdMerge] using hx
  | case3 x xs y ys h ih =>
    intro hx hy
    rw [stdMerge, if_pos h]
    rw [List.sorted_cons] at hy ⊢
    refine ⟨?_, ih hx hy.2⟩
    intro b hb
    have hb2 : b = x ∨ b ∈ xs ∨ b ∈ ys := by
      have := (stdMerge_perm (x :: xs) ys).mem_iff.mp hb
      simpa using this
    rw [List.sorted_cons] at hx
    rcases hb2 with rfl | h3 | h2
    · exact le_of_lt h
    · exact le_trans (le_of_lt h) (hx.1 b h3)
    · exact hy.1 b h2
  | case4 x xs y ys h ih =>
    intro hx hy
    rw [stdMerge, if_neg h]
    rw [List.sorted_cons] at hx ⊢
    refine ⟨?_, ih hx.2 hy⟩
    intro b hb
    have hb2 : b ∈ xs ∨ b = y ∨ b ∈ ys := by
      have := (stdMerge_perm xs (y :: ys)).mem_iff.mp hb
      simpa using this
    rw [List.sorted_cons] at hy
    rcases hb2 with h1 | rfl | h3
    · exact hx.1 b h1
    · exact le_of_not_lt h
    · exact le_trans (le_of_not_lt h) (hy.1 b h3)

theorem runSort_perm : ∀ v : List ℤ,
    (PartitionedTaskStackRunner.runSort v).Perm v := by
  intro v
  induction v using PartitionedTaskStackRunner.runSort.induct with
  | case1 v h =>
    rw [PartitionedTaskStackRunner.runSort, if_pos h]
    exact List.perm_insertionSort _ v
  | case2 v h ih1 ih2 =>
    rw [PartitionedTaskStackRunner.runSort, if_neg h]
    have hm := stdMerge_perm
      (PartitionedTaskStackRunner.runSort (v.take (v.length / 2)))
      (PartitionedTaskStackRunner.runSort (v.drop (v.length / 2)))
    refine hm.trans ((ih1.append ih2).trans ?_)
    rw [List.take_append_drop]

theorem runSort_sorted : ∀ v : List ℤ,
    (PartitionedTaskStackRunner.runSort v).Sorted (· ≤ ·) := by
  intro v
  induction v using PartitionedTaskStackRunner.runSort.induct with
  | case1 v h =>
    rw [PartitionedTaskStackRunner.runSort, if_pos h]
    exact List.sorted_insertionSort _ v
  | case2 v h ih1 ih2 =>
    rw [PartitionedTaskStackRunner.runSort, if_neg h]
    exact stdMerge_sorted _ _ ih1 ih2

/-- Claim C6: for every input vector, the mergesort task run under the
partitioned sequential runner and under the direct runner terminates with
the task vector equal to a sorted permutation of the input. -/
theorem mergesort_runners_sort (v : List ℤ) :
    ((PartitionedTaskStackRunner.runSort v).Perm v ∧
      (PartitionedTaskStackRunner.runSort v).Sorted (· ≤ ·)) ∧
    ((DirectTaskRunner.runSort v).Perm v ∧
      (DirectTaskRunner.runSort v).Sorted (· ≤ ·)) :=
  ⟨⟨runSort_perm v, runSort_sorted v⟩,
   ⟨List.perm_insertionSort _ v, List.sorted_insertionSort _ v⟩⟩

theorem runAux_created : ∀ (pool : List TaskTree) (c p : ℕ) (o : ℤ),
    (ParallelTaskRunner.runAux pool c p o).tasks_created + pool.length =
      c + TaskTree.leavesL pool + TaskTree.splitsL pool := by
  intro pool c p o
  induction pool, c, p, o using ParallelTaskRunner.runAux.induct with
  | case1 c p o =>
    simp [ParallelTaskRunner.runAux, TaskTree.leavesL, TaskTree.splitsL]
  | case2 cs rest c p o h out2 ih =>
    have hcs : cs = [] := List.isEmpty_iff.mp h
    subst hcs
    have hout2 : out2 = o - 1 := rfl
    rw [hout2] at ih
    rw [ParallelTaskRunner.runAux, if_pos h]
    dsimp only
    simp only [List.length_cons, TaskTree.leavesL, TaskTree.splitsL,
      TaskTree.leaves, TaskTree.splits, List.isEmpty_nil, if_true]
    omega
  | case3 cs rest c p o h out2 ih =>
    have hout2 : out2 = o + cs.length - 1 := rfl
    rw [hout2] at ih
    rw [ParallelTaskRunner.runAux, if_neg h]
    dsimp only
    rw [TaskTree.leavesL_append, TaskTree.leavesL_reverse,
      TaskTree.splitsL_append, TaskTree.splitsL_reverse,
      List.length_append, List.length_reverse] at ih
    simp only [List.length_cons, TaskTree.leavesL, TaskTree.splitsL,
      TaskTree.leaves, TaskTree.splits, h, Bool.false_eq_true, if_false]
    omega

theorem runAux_processed : ∀ (pool : List TaskTree) (c p : ℕ) (o : ℤ),
    (ParallelTaskRunner.runAux pool c p o).tasks_processed =
      p + TaskTree.leavesL pool := by
  intro pool c p o
  induction pool, c, p, o using ParallelTaskRunner.runAux.induct with
  | case1 c p o =>
    simp [ParallelTaskRunner.runAux, TaskTree.leavesL]
  | case2 cs rest c p o h out2 ih =>
    have hcs : cs = [] := List.isEmpty_iff.mp h
    subst hcs
    have hout2 : out2 = o - 1 := rfl
    rw [hout2] at ih
    rw [ParallelTaskRunner.runAux, if_pos h]
    dsimp only
    simp only [TaskTree.leavesL, TaskTree.leaves, List.isEmpty_nil, if_true, ih]
    omega
  | case3 cs rest c p o h out2 ih =>
    have hout2 : out2 = o + cs.length - 1 := rfl
    rw [hout2] at ih
    rw [ParallelTaskRunner.runAux, if_neg h]
    dsimp only
    rw [TaskTree.leavesL_append, TaskTree.leavesL_reverse] at ih
    simp only [TaskTree.leavesL, TaskTree.leaves, h, Bool.false_eq_true,
      if_false, ih]

theorem runAux_zeros : ∀ (pool : List TaskTree) (c p : ℕ) (o : ℤ),
    o = (pool.length : ℤ) →
    (ParallelTaskRunner.runAux pool c p o).outstanding_trace.count 0 =
      if pool.isEmpty then 0 else 1 := by
  intro pool c p o
  induction pool, c, p, o using ParallelTaskRunner.runAux.induct with
  | case1 c p o =>
    intro _
    simp [ParallelTaskRunner.runAux]
  | case2 cs rest c p o h out2 ih =>
    have hcs : cs = [] := List.isEmpty_iff.mp h
    subst hcs
    intro ho
    simp only [List.length_cons] at ho
    have hout2 : out2 = o - 1 := rfl
    rw [hout2] at ih
    have holen : o - 1 = (rest.length : ℤ) := by push_cast at ho ⊢; omega
    have hcount := ih holen
    rw [ParallelTaskRunner.runAux, if_pos h]
    dsimp only
    simp only [List.count_cons, hcount, List.isEmpty_cons, Bool.false_eq_true,
      if_false]
    cases rest with
    | nil =>
      have hz : o - 1 = 0 := by simpa using holen
      simp [hz]
    | cons r rs =>
      have hz : ¬ (o - 1 = 0) := by
        rw [holen]
        simp only [List.length_cons]
        push_cast
        omega
      simp [hz]
  | case3 cs rest c p o h out2 ih =>
    intro ho
    have hcs : cs ≠ [] := fun hc => by simp [hc] at h
    have hlen : 0 < cs.length := List.length_pos.mpr hcs
    have hout2 : out2 = o + cs.length - 1 := rfl
    rw [hout2] at ih
    simp only [List.length_cons] at ho
    have holen : o + cs.length - 1 = ((cs.reverse ++ rest).length : ℤ) := by
      simp only [List.length_append, List.length_reverse]
      push_cast at ho ⊢
      omega
    have hcount := ih holen
    rw [ParallelTaskRunner.runAux, if_neg h]
    dsimp only
    simp only [List.count_cons, hcount, List.isEmpty_cons, Bool.false_eq_true,
      if_false]
    have hne : (cs.reverse ++ rest).isEmpty = false := by
      cases hem : (cs.reverse ++ rest).isEmpty with
      | false => rfl
      | true =>
        have hnil := List.isEmpty_iff.mp hem
        simp [hcs] at hnil
    have hnz : ¬ (o + cs.length - 1 = 0) := by
      rw [holen]
      simp only [List.length_append, List.length_reverse]
      push_cast
      omega
    simp [hne, hnz]

/-- Claim C1 (amended): after run returns on a root whose split/solve tree
has M leaf tasks and S splitting tasks, the runner reports tasks_processed
= M and tasks_created = M + S, the total number of tasks that entered the
pool, the root among them (the claimed M + S + 1 counts the root twice);
the outstanding_tasks counter reaches 0 exactly once during the run. -/
theorem parallel_runner_counters (root : TaskTree) :
    (ParallelTaskRunner.run root).tasks_processed = root.leaves ∧
    (ParallelTaskRunner.run root).tasks_created = root.leaves + root.splits ∧
    (ParallelTaskRunner.run root).outstanding_trace.count 0 = 1 := by
  unfold ParallelTaskRunner.run
  refine ⟨?_, ?_, ?_⟩
  · have h := runAux_processed [root] 1 0 1
    simpa [TaskTree.leavesL] using h
  · have h := runAux_created [root] 1 0 1
    simp only [TaskTree.leavesL, TaskTree.splitsL, List.length_cons,
      List.length_nil] at h
    omega
  · have h := runAux_zeros [root] 1 0 1 (by simp)
    simpa using h

/-- Claim C1 counterexample: on a root that splits into two leaves (M = 2,
S = 1) the runner reports tasks_created = 3, the number of tasks that
existed, not M + S + 1 = 4. -/
theorem parallel_runner_created_counterexample :
    ¬ ((ParallelTaskRunner.run cxTree).tasks_processed = cxTree.leaves ∧
       (ParallelTaskRunner.run cxTree).tasks_created =
         cxTree.leaves + cxTree.splits + 1) := by
  intro hcl
  have h := runAux_created [cxTree] 1 0 1
  have hl : TaskTree.leavesL [cxTree] = 2 := by
    simp [cxTree, TaskTree.leavesL, TaskTree.leaves]
  have hs : TaskTree.splitsL [cxTree] = 1 := by
    simp [cxTree, TaskTree.splitsL, TaskTree.splits]
  have hl2 : cxTree.leaves = 2 := by
    simp [cxTree, TaskTree.leaves, TaskTree.leavesL]
  have hs2 : cxTree.splits = 1 := by
    simp [cxTree, TaskTree.splits, TaskTree.splitsL]
  rw [hl, hs] at h
  rw [hl2, hs2] at hcl
  unfold ParallelTaskRunner.run at hcl
  simp at h
  omega

theorem updateBestPath_mono (s : TSPShared) (c : TSPPath) :
    (ModifiedTSPTask.updateBestPath s c).1.best_distance ≤ s.best_distance ∧
    (ModifiedTSPTask.updateBestPath s c).1.initial_bound_set =
      s.initial_bound_set := by
  unfold ModifiedTSPTask.updateBestPath
  split
  · exact ⟨le_of_lt (by assumption), rfl⟩
  · exact ⟨le_refl _, rfl⟩

theorem solveLoop_mono (g : TSPGraph)
    (recur : TSPShared → TSPPath → ℕ → TSPShared × ℕ) (path : TSPPath)
    (hrec : ∀ s p c, (recur s p c).1.best_distance ≤ s.best_distance ∧
        (recur s p c).1.initial_bound_set = s.initial_bound_set) :
    ∀ (is : List ℕ) (s : TSPShared) (cb : ℤ) (cnt : ℕ),
      (ModifiedTSPTask.solveLoop g recur path is s cb cnt).1.best_distance ≤
        s.best_distance ∧
      (ModifiedTSPTask.solveLoop g recur path is s cb cnt).1.initial_bound_set =
        s.initial_bound_set := by
  intro is
  induction is with
  | nil => intro s cb cnt; exact ⟨le_refl _, rfl⟩
  | cons i rest ih =>
    intro s cb cnt
    rw [ModifiedTSPTask.solveLoop]
    split
    · have h1 := hrec s (path.pushT g i) cnt
      have h2 := ih (recur s (path.pushT g i) cnt).1
        (recur s (path.pushT g i) cnt).1.best_distance
        (recur s (path.pushT g i) cnt).2
      exact ⟨le_trans h2.1 h1.1, h2.2.trans h1.2⟩
    · exact ih s cb cnt

theorem solve_mono (g : TSPGraph) : ∀ (fuel : ℕ) (s : TSPShared)
    (path : TSPPath) (cnt : ℕ),
    (ModifiedTSPTask.solve g fuel s path cnt).1.best_distance ≤
      s.best_distance ∧
    (ModifiedTSPTask.solve g fuel s path cnt).1.initial_bound_set =
      s.initial_bound_set := by
  intro fuel
  induction fuel with
  | zero => intro s path cnt; exact ⟨le_refl _, rfl⟩
  | succ n ih =>
    intro s path cnt
    rw [ModifiedTSPTask.solve]
    split
    · exact ⟨le_refl _, rfl⟩
    · split
      · dsimp only
        split
        · exact updateBestPath_mono s _
        · exact ⟨le_refl _, rfl⟩
      · exact solveLoop_mono g _ path (fun s2 p2 c2 => ih s2 p2 c2)
          (List.range g.n) s s.best_distance _

theorem applyMOp_mono_of_flag (g : TSPGraph) (cutoffSize : ℤ) (fuel : ℕ)
    (s : TSPShared) (op : MOp) (hs : s.initial_bound_set = true) :
    (applyMOp g cutoffSize fuel s op).best_distance ≤ s.best_distance ∧
    (applyMOp g cutoffSize fuel s op).initial_bound_set = true := by
  cases op with
  | splitOp t =>
    rw [applyMOp, splitResult_state]
    unfold ModifiedTSPTask.ensureInitialBound
    rw [if_pos hs]
    exact ⟨le_refl _, hs⟩
  | solveOp t =>
    have h := solve_mono g fuel s t.path t.counter
    exact ⟨h.1, h.2.trans hs⟩
  | updateOp c =>
    have h := updateBestPath_mono s c
    exact ⟨h.1, h.2.trans hs⟩

theorem stateTrace_head (g : TSPGraph) (cutoffSize : ℤ) (fuel : ℕ)
    (s : TSPShared) (σ : List MOp) :
    (stateTrace g cutoffSize fuel s σ).head? = some s := by
  cases σ <;> rfl

theorem stateTrace_chain_of_flag (g : TSPGraph) (cutoffSize : ℤ) (fuel : ℕ) :
    ∀ (σ : List MOp) (s : TSPShared), s.initial_bound_set = true →
    (stateTrace g cutoffSize fuel s σ).Chain'
      (fun a b => b.best_distance ≤ a.best_distance) := by
  intro σ
  induction σ with
  | nil => intro s _; simp [stateTrace]
  | cons op rest ih =>
    intro s hs
    rw [stateTrace]
    have hmono := applyMOp_mono_of_flag g cutoffSize fuel s op hs
    rw [List.chain'_cons']
    constructor
    · intro b hb
      rw [stateTrace_head] at hb
      cases hb
      exact hmono.1
    · exact ih _ hmono.2

theorem applyMOp_mono_no_split (g : TSPGraph) (cutoffSize : ℤ) (fuel : ℕ)
    (s : TSPShared) (op : MOp) (hop : op.isSplit = false) :
    (applyMOp g cutoffSize fuel s op).best_distance ≤ s.best_distance ∧
    (applyMOp g cutoffSize fuel s op).initial_bound_set =
      s.initial_bound_set := by
  cases op with
  | splitOp t => cases hop
  | solveOp t => exact solve_mono g fuel s t.path t.counter
  | updateOp c => exact updateBestPath_mono s c

theorem stateTrace_chain_no_split (g : TSPGraph) (cutoffSize : ℤ) (fuel : ℕ) :
    ∀ (σ : List MOp) (s : TSPShared), (∀ op ∈ σ, op.isSplit = false) →
    (stateTrace g cutoffSize fuel s σ).Chain'
      (fun a b => b.best_distance ≤ a.best_distance) := by
  intro σ
  induction σ with
  | nil => intro s _; simp [stateTrace]
  | cons op rest ih =>
    intro s hσ
    rw [stateTrace]
    have hmono := applyMOp_mono_no_split g cutoffSize fuel s op
      (hσ op (List.mem_cons_self op rest))
    rw [List.chain'_cons']
    constructor
    · intro b hb
      rw [stateTrace_head] at hb
      cases hb
      exact hmono.1
    · exact ih _ (fun o ho => hσ o (List.mem_cons_of_mem op ho))

/-- Claim C2: for every run-shaped sequence of ModifiedTSPTask operations
(split, solve, updateBestPath) from the constructor state, the shared
best_distance is monotonically non-increasing at every call boundary. In
every run the first operation on the shared state is the root's split
(which installs the initial bound over INT_MAX) unless no split ever occurs
(the DirectTaskRunner case); the hypothesis hrun states exactly that shape.
The hypothesis hbound keeps the naive tour cost inside the int range, as in
the C++ program. -/
theorem best_distance_monotone (g : TSPGraph) (cutoffSize : ℤ) (fuel : ℕ)
    (σ : List MOp)
    (hbound : (naiveTour g).distance ≤ intMax)
    (hrun : (∃ op ∈ σ, op.isSplit = true) →
      ∃ t rest, σ = MOp.splitOp t :: rest) :
    (stateTrace g cutoffSize fuel initShared σ).Chain'
      (fun a b => b.best_distance ≤ a.best_distance) := by
  by_cases hsplit : ∃ op ∈ σ, op.isSplit = true
  · obtain ⟨t, rest, rfl⟩ := hrun hsplit
    rw [stateTrace]
    have hstate : applyMOp g cutoffSize fuel initShared (MOp.splitOp t) =
        { best_distance := (naiveTour g).distance
          best_path := naiveTour g
          initial_bound_set := true } := by
      rw [applyMOp, splitResult_state, ensure_flag_false g initShared rfl]
    rw [List.chain'_cons']
    constructor
    · intro b hb
      rw [stateTrace_head] at hb
      cases hb
      rw [hstate]
      exact hbound
    · refine stateTrace_chain_of_flag g cutoffSize fuel rest _ ?_
      rw [hstate]
  · push_neg at hsplit
    refine stateTrace_chain_no_split g cutoffSize fuel σ initShared ?_
    intro op hop
    have := hsplit op hop
    cases hiss : op.isSplit
    · rfl
    · exact absurd hiss this

theorem best_distance_monotone_witness :
    (stateTrace g2 2 3 initShared
      [MOp.splitOp ⟨TSPPath.init, 0⟩, MOp.updateOp TSPPath.init,
        MOp.solveOp ⟨TSPPath.init, 0⟩]).Chain'
      (fun a b => b.best_distance ≤ a.best_distance) :=
  best_distance_monotone g2 2 3 _ (by decide)
    (fun _ => ⟨⟨TSPPath.init, 0⟩,
      [MOp.updateOp TSPPath.init, MOp.solveOp ⟨TSPPath.init, 0⟩], rfl⟩)
